import Mathlib

/-!
# Verification of the SO101 websim follower bridge

Shallow embedding of the bridge between the teleoperation stack and the
websocket simulator endpoint:

* `send_action`, `get_observation` embed the methods of
  `SO101WebSimFollower` (`so101_websim_follower.py`);
* `connect_go` / `connect` embed the bounded-retry connection loop;
* `rx_step` embeds one iteration of the endpoint ingest task `rx_loop`
  (`sim_ws_server_example.py`).

Python dictionaries keyed by joint name are embedded as association lists
`List (String × ℚ)` in insertion order; floats are embedded as exact
rationals.  The `"<joint>.pos"` key decoration of the observation cache is
dropped uniformly (cache keys are bare joint names), while the `.pos`
suffix filtering of incoming action keys is kept, since the source
manipulates those suffixes.
-/

/-- Association-list lookup, the embedding of Python `d.get(k)` /
`k in d` on a dict held in insertion order. -/
def alook {β : Type} (l : List (String × β)) (k : String) : Option β :=
  match l with
  | [] => none
  | kv :: rest => if kv.1 = k then some kv.2 else alook rest k

/-- Python `d[k] = v`: overwrite in place when the key exists, else append
(insertion order). -/
def aset {β : Type} (l : List (String × β)) (k : String) (v : β) : List (String × β) :=
  if (alook l k).isSome then
    l.map (fun kv => if kv.1 = k then (kv.1, v) else kv)
  else
    l ++ [(k, v)]

/-- Python `dict(pairs)`: insert the pairs left to right, later values for
a repeated key overwriting earlier ones. -/
def dictOfPairs {β : Type} (pairs : List (String × β)) : List (String × β) :=
  pairs.foldl (fun acc p => aset acc p.1 p.2) []

/-- Python `if k in d: d[k] = v` — overwrite only an existing key. -/
def setIfPresent {β : Type} (l : List (String × β)) (k : String) (v : β) :
    List (String × β) :=
  l.map (fun kv => if kv.1 = k then (kv.1, v) else kv)

/-- The cache-merge loop of `get_observation`: write each decoded
`(name, value)` pair onto the cache, keeping only recognized keys. -/
def applyUpdates (pos ntv : List (String × ℚ)) : List (String × ℚ) :=
  ntv.foldl (fun acc p => setIfPresent acc p.1 p.2) pos

/-- The `max_relative_target` configuration field: a scalar limit applied
to every joint, or a per-joint mapping. -/
inductive MaxRelTarget where
  | scalar (r : ℚ)
  | perJoint (m : List (String × ℚ))
deriving DecidableEq

/-- The relative step limit configured for a joint, if any. -/
def relLimit (mrt : MaxRelTarget) (jn : String) : Option ℚ :=
  match mrt with
  | .scalar r => some r
  | .perJoint m => alook m jn

/-- The fields of `SO101WebSimFollowerConfig` that the embedded operations
read (`config_so101_websim_follower.py`). -/
structure SO101Config where
  joint_names : List String
  max_relative_target : Option MaxRelTarget
  joint_min : Option (List ℚ)
  joint_max : Option (List ℚ)
deriving DecidableEq

/-- The `_last_obs` cache: one position per joint name plus a timestamp. -/
structure LastObs where
  pos : List (String × ℚ)
  timestamp : ℚ
deriving DecidableEq

/-- `self._last_obs[f"{jn}.pos"]`, with `0` standing in for the positions
the constructor initializes (the cache invariantly holds every configured
joint). -/
def presentOf (obs : LastObs) (jn : String) : ℚ :=
  (alook obs.pos jn).getD 0

/-- One step of the spec's relative clamp: candidate pulled toward the
previous value when a limit is defined for the joint. -/
def relClamp (mrt : MaxRelTarget) (jn : String) (gp : ℚ × ℚ) : ℚ :=
  match relLimit mrt jn with
  | some r => max (gp.2 - r) (min gp.1 (gp.2 + r))
  | none => gp.1

/-- Modelled from the spec: `ensure_safe_goal_position` (imported by the
follower from `lerobot`'s utils module, which is not part of this
repository's sources).  Per the spec's CommandShaper step 2, each
candidate with a defined relative limit is clamped so that
`|candidate - previous| <= limit`, clamping toward previous. -/
def ensure_safe_goal_position (goal_present : List (String × ℚ × ℚ))
    (mrt : MaxRelTarget) : List (String × ℚ) :=
  goal_present.map (fun t => (t.1, relClamp mrt t.1 t.2))

/-- `k.endswith(".pos")`, computed on the underlying character list. -/
def endsWithPos (k : String) : Bool :=
  match k.data.reverse with
  | 's' :: 'o' :: 'p' :: '.' :: _ => true
  | _ => false

/-- `k.removesuffix(".pos")` on a key that ends with `".pos"`: drop the
last four characters. -/
def dropPos (k : String) : String :=
  String.mk (k.data.take (k.data.length - 4))

/-- `{k.removesuffix(".pos"): float(v) for k, v in action.items() if
k.endswith(".pos")}`. -/
def extract_goal_pos (action : List (String × ℚ)) : List (String × ℚ) :=
  dictOfPairs ((action.filter (fun kv => endsWithPos kv.1)).map
    (fun kv => (dropPos kv.1, kv.2)))

/-- The optional relative-safety stage of `send_action`: when
`max_relative_target` is configured, build `goal_present` over every
configured joint (target value if provided, else the cached present value)
and pass it through `ensure_safe_goal_position`. -/
def relStep (cfg : SO101Config) (obs : LastObs) (goal_pos : List (String × ℚ)) :
    List (String × ℚ) :=
  match cfg.max_relative_target with
  | none => goal_pos
  | some mrt =>
      ensure_safe_goal_position
        (cfg.joint_names.map (fun jn =>
          (jn, (alook goal_pos jn).getD (presentOf obs jn), presentOf obs jn)))
        mrt

/-- The per-index body of the absolute-clamp loop
`for i, jn in enumerate(self.config.joint_names)`, with `i` threaded
explicitly. -/
def absClampList (obs : LastObs) (goal_pos : List (String × ℚ)) (lo hi : List ℚ) :
    List String → Nat → List (String × ℚ)
  | [], _ => []
  | jn :: rest, i =>
      (jn, min (max ((alook goal_pos jn).getD (presentOf obs jn)) (lo.getD i 0))
        (hi.getD i 0)) :: absClampList obs goal_pos lo hi rest (i + 1)

/-- The optional absolute-clamp stage of `send_action`.  Python truthiness:
`if self.config.joint_min and self.config.joint_max:` skips the stage when
either list is `None` or empty. -/
def absStep (cfg : SO101Config) (obs : LastObs) (goal_pos : List (String × ℚ)) :
    List (String × ℚ) :=
  match cfg.joint_min, cfg.joint_max with
  | some lo, some hi =>
      if lo.isEmpty || hi.isEmpty then goal_pos
      else absClampList obs goal_pos lo hi cfg.joint_names 0
  | _, _ => goal_pos

/-- Whether the absolute-clamp stage runs at all. -/
def absActive (cfg : SO101Config) : Bool :=
  match cfg.joint_min, cfg.joint_max with
  | some lo, some hi => !lo.isEmpty && !hi.isEmpty
  | _, _ => false

/-- What one call of `send_action` produces: the `target` list of the
outgoing payload (ordered by `joint_names`), the returned dict, the cache
after the optimistic update, and whether the empty-goal warning fired. -/
structure SendOutcome where
  target : List ℚ
  returned : List (String × ℚ)
  cache : LastObs
  warned : Bool
deriving DecidableEq

/-- `SO101WebSimFollower.send_action`.  `sendOk` records whether the
transport send succeeded; the method swallows any send failure
(`except Exception: print(...)`), so the outcome may not depend on it.
The payload timestamp is `now`; the returned dict
`{f"{jn}.pos": target[i]}` is embedded with bare joint-name keys. -/
def send_action (cfg : SO101Config) (obs : LastObs) (now : ℚ) (sendOk : Bool)
    (action : List (String × ℚ)) : SendOutcome :=
  let g0 := extract_goal_pos action
  let g2 := absStep cfg obs (relStep cfg obs g0)
  let target := cfg.joint_names.map (fun jn => (alook g2 jn).getD (presentOf obs jn))
  { target := target
    returned := cfg.joint_names.zip target
    cache :=
      { pos := (cfg.joint_names.zip target).foldl (fun acc p => aset acc p.1 p.2) obs.pos
        timestamp := now }
    warned := g0.isEmpty }

/-- The decoded `joint_pos` field of an inbound state frame.
`isinstance(data["joint_pos"], list)` holds only for `list`; the other
JSON shapes split by what `zip` does with them: a JSON string is not a
list but is still iterable, so `zip(names, joint_pos)` pairs names with
its characters (a JSON object likewise iterates, over its keys, and is
not separately modelled); a number, boolean or null is not iterable and
`zip` raises a `TypeError` on it. -/
inductive JPos where
  | list (ps : List ℚ)
  | str (s : String)
  | nonIterable
deriving DecidableEq

/-- A parsed inbound JSON object, as read by `get_observation`:
`data.get("type")`, optional `names`, optional `joint_pos`, optional
`timestamp`. -/
structure StateMsg where
  type : Option String
  names : Option (List String)
  joint_pos : Option JPos
  timestamp : Option ℚ
deriving DecidableEq

/-- What `_async_try_recv` plus `json.loads` deliver: no pending message,
a message that fails to parse, or a parsed object. -/
inductive Inbound where
  | noMsg
  | badJson
  | msg (m : StateMsg)
deriving DecidableEq

/-- Python `float(v)` on a one-character string, as produced by iterating
a JSON string: a decimal digit parses to its value, any other character
raises `ValueError`.  (Embedded for ASCII characters; Python additionally
parses non-ASCII Unicode decimal digits.) -/
def pyFloatOfChar (c : Char) : Option ℚ :=
  if c.isDigit then some ((c.toNat - 48 : Nat) : ℚ) else none

/-- The merge loop of `get_observation` run on a dict whose values are the
characters of a string-valued `joint_pos`: pairs with an unrecognized key
are skipped without touching their value; a recognized key converts its
character with `float`, which either overwrites the entry or raises,
aborting the loop.  Returns the cache state (updates applied so far
persist, since Python mutates in place) and whether the loop completed
without raising. -/
def mergeChars : List (String × ℚ) → List (String × Char) → List (String × ℚ) × Bool
  | pos, [] => (pos, true)
  | pos, p :: rest =>
      if (alook pos p.1).isSome then
        match pyFloatOfChar p.2 with
        | some v => mergeChars (setIfPresent pos p.1 v) rest
        | none => (pos, false)
      else mergeChars pos rest

/-- `SO101WebSimFollower.get_observation`: drain at most one inbound
message, merge a state frame into the cache, return (a copy of) the
cache.  `now` is the local clock value read by `time.time()` inside the
merge.  With `names` present, `name_to_val = dict(zip(names, joint_pos))`:
a list zips to numeric values, a string zips to its characters, and a
non-iterable makes `zip` raise a `TypeError` that the enclosing `except`
swallows before anything (the timestamp included) is written. -/
def get_observation (cfg : SO101Config) (obs : LastObs) (now : ℚ) (inb : Inbound) :
    LastObs :=
  match inb with
  | .noMsg => obs
  | .badJson => obs
  | .msg m =>
      if m.type = some "state" then
        match m.names, m.joint_pos with
        | some ns, some (.list ps) =>
            { pos := applyUpdates obs.pos (dictOfPairs (ns.zip ps))
              timestamp := m.timestamp.getD now }
        | some ns, some (.str s) =>
            match mergeChars obs.pos (dictOfPairs (ns.zip s.data)) with
            | (pos2, true) => { pos := pos2, timestamp := m.timestamp.getD now }
            | (pos2, false) => { pos := pos2, timestamp := obs.timestamp }
        | some _, some .nonIterable => obs
        | none, some (.list ps) =>
            { pos := applyUpdates obs.pos (dictOfPairs (cfg.joint_names.zip ps))
              timestamp := m.timestamp.getD now }
        | _, _ => { pos := obs.pos, timestamp := m.timestamp.getD now }
      else obs

/-- The canonical joint schema of the endpoint (`sim_ws_server_example.py`). -/
def JOINT_NAMES : List String :=
  ["shoulder_pan", "shoulder_lift", "elbow_flex", "wrist_flex", "wrist_roll", "gripper"]

/-- The decoded `target` field of an inbound command frame at the endpoint:
a JSON list of numbers or some other JSON value. -/
inductive TargetField where
  | list (tgt : List ℚ)
  | notList
deriving DecidableEq

/-- A parsed inbound JSON object at the endpoint ingest task. -/
structure CmdMsg where
  type : Option String
  mode : Option String
  names : Option (List String)
  target : Option TargetField
deriving DecidableEq

/-- One inbound websocket text frame at the endpoint: unparsable JSON or a
parsed object. -/
inductive RxInbound where
  | badJson
  | msg (m : CmdMsg)
deriving DecidableEq

/-- One iteration of the endpoint ingest loop `rx_loop`, mapping the
authoritative vector `q` to its next value.  A missing `target` decodes as
`d.get("target", [])`, an empty list, which fails the canonical-length
check exactly like a present empty list. -/
def rx_step (q : List ℚ) (inb : RxInbound) : List ℚ :=
  match inb with
  | .badJson => q
  | .msg m =>
      if m.type ≠ some "cmd" then q
      else if m.mode ≠ some "joint_position" then q
      else
        match m.target with
        | some (.list tgt) => if tgt.length = JOINT_NAMES.length then tgt else q
        | some .notList => q
        | none => q

/-- `rx_loop` over a finite inbound sequence. -/
def rx_steps (q : List ℚ) (inbs : List RxInbound) : List ℚ :=
  inbs.foldl rx_step q

/-- How one connection attempt inside `connect` ends: `_async_connect`
completes and stores the handle; it raises (e.g. connection refused),
caught by the `except` branch; or it exceeds the 2 s bound, in which case
`_run` swallows the `asyncio.TimeoutError` and returns `None` with no
handle stored. -/
inductive AttemptOutcome where
  | success
  | failure
  | timeout
deriving DecidableEq

/-- How a call of `connect` ends, with the number of attempts made:
`connected` means the handle is stored; `connectionFailed` is the final
`RuntimeError` raised with no handle stored. -/
inductive ConnectResult where
  | alreadyConnected
  | connected (attemptsUsed : Nat)
  | connectionFailed (attemptsUsed : Nat)
deriving DecidableEq

/-- The retry loop `for attempt in range(10)` of `connect`, with `f n` the
outcome of the `n`-th attempt.  A successful attempt breaks with the
handle stored; a raising attempt sleeps 0.5 s and retries; a timed-out
attempt breaks with no handle (no exception reaches the `except` branch),
after which the final `is_connected` check raises. -/
def connect_go (f : Nat → AttemptOutcome) : Nat → Nat → ConnectResult
  | 0, used => .connectionFailed used
  | fuel + 1, used =>
      match f used with
      | .success => .connected (used + 1)
      | .timeout => .connectionFailed (used + 1)
      | .failure => connect_go f fuel (used + 1)

/-- `SO101WebSimFollower.connect`. -/
def connect (isConnected : Bool) (f : Nat → AttemptOutcome) : ConnectResult :=
  if isConnected then .alreadyConnected else connect_go f 10 0

/-! ## Association-list lemmas -/

theorem alook_nil (k : String) : alook ([] : List (String × ℚ)) k = none := rfl

theorem alook_cons {β : Type} (a : String) (b : β) (l : List (String × β)) (k : String) :
    alook ((a, b) :: l) k = if a = k then some b else alook l k := rfl

theorem alook_eq_none_iff {β : Type} (l : List (String × β)) (k : String) :
    alook l k = none ↔ k ∉ l.map Prod.fst := by
  induction l with
  | nil => simp [alook]
  | cons kv rest ih =>
      obtain ⟨a, b⟩ := kv
      by_cases h : a = k
      · subst h
        simp [alook_cons]
      · rw [alook_cons, if_neg h, ih]
        simp only [List.map_cons, List.mem_cons, not_or]
        constructor
        · exact fun hnm => ⟨fun hk => h hk.symm, hnm⟩
        · exact fun hp => hp.2

theorem setIfPresent_nil (k : String) (v : ℚ) : setIfPresent [] k v = [] := rfl

theorem setIfPresent_cons {β : Type} (a : String) (b : β) (rest : List (String × β))
    (k : String) (v : β) :
    setIfPresent ((a, b) :: rest) k v =
      (if a = k then (a, v) else (a, b)) :: setIfPresent rest k v := rfl

theorem alook_setIfPresent_self {β : Type} (l : List (String × β)) (k : String) (v : β) :
    alook (setIfPresent l k v) k = (alook l k).map (fun _ => v) := by
  induction l with
  | nil => rfl
  | cons kv rest ih =>
      obtain ⟨a, b⟩ := kv
      by_cases ha : a = k
      · simp [setIfPresent_cons, alook_cons, ha]
      · simp [setIfPresent_cons, alook_cons, ha, ih]

theorem alook_setIfPresent_ne {β : Type} (l : List (String × β)) (k : String) (v : β)
    (k' : String) (h : k' ≠ k) :
    alook (setIfPresent l k v) k' = alook l k' := by
  induction l with
  | nil => rfl
  | cons kv rest ih =>
      obtain ⟨a, b⟩ := kv
      by_cases ha : a = k
      · simp [setIfPresent_cons, alook_cons, ha, Ne.symm h, ih]
      · by_cases ha' : a = k'
        · simp [setIfPresent_cons, alook_cons, ha, ha', h]
        · simp [setIfPresent_cons, alook_cons, ha, ha', ih]

theorem isSome_alook_setIfPresent {β : Type} (l : List (String × β)) (k : String)
    (v : β) (k' : String) :
    (alook (setIfPresent l k v) k').isSome = (alook l k').isSome := by
  by_cases h : k' = k
  · subst h
    rw [alook_setIfPresent_self]
    cases alook l k' <;> simp
  · rw [alook_setIfPresent_ne _ _ _ _ h]

theorem alook_append_of_none {β : Type} (l₁ l₂ : List (String × β)) (k : String)
    (h : alook l₁ k = none) : alook (l₁ ++ l₂) k = alook l₂ k := by
  induction l₁ with
  | nil => simp
  | cons kv rest ih =>
      obtain ⟨a, b⟩ := kv
      by_cases ha : a = k
      · simp [alook_cons, ha] at h
      · simp [alook_cons, ha] at h ⊢
        exact ih h

theorem alook_aset_self {β : Type} (l : List (String × β)) (k : String) (v : β) :
    alook (aset l k v) k = some v := by
  unfold aset
  cases hal : alook l k with
  | none =>
      rw [if_neg (by simp [hal])]
      rw [alook_append_of_none l [(k, v)] k hal, alook_cons, if_pos rfl]
  | some w =>
      rw [if_pos (by simp [hal])]
      rw [show (l.map fun kv => if kv.1 = k then (kv.1, v) else kv) = setIfPresent l k v
          from rfl,
        alook_setIfPresent_self, hal]
      rfl

theorem alook_append_single_ne {β : Type} (l : List (String × β)) (k : String) (v : β)
    (k' : String)
    (h : k' ≠ k) : alook (l ++ [(k, v)]) k' = alook l k' := by
  induction l with
  | nil => simp [alook_cons, Ne.symm h, alook]
  | cons kv rest ih =>
      obtain ⟨a, b⟩ := kv
      by_cases ha : a = k' <;>
        simp only [List.cons_append, alook_cons, ha, if_true, if_false] <;> simp [ih]

theorem alook_aset_ne {β : Type} (l : List (String × β)) (k : String) (v : β)
    (k' : String) (h : k' ≠ k) :
    alook (aset l k v) k' = alook l k' := by
  unfold aset
  by_cases hs : (alook l k).isSome = true
  · rw [if_pos hs]
    exact alook_setIfPresent_ne l k v k' h
  · rw [if_neg hs]
    exact alook_append_single_ne l k v k' h

theorem alook_foldl_aset_not_mem {β : Type} (pairs : List (String × β))
    (l : List (String × β)) (k : String) (h : k ∉ pairs.map Prod.fst) :
    alook (pairs.foldl (fun a p => aset a p.1 p.2) l) k = alook l k := by
  induction pairs generalizing l with
  | nil => rfl
  | cons p rest ih =>
      simp only [List.map_cons, List.mem_cons, not_or] at h
      rw [List.foldl_cons, ih (aset l p.1 p.2) h.2, alook_aset_ne l p.1 p.2 k h.1]

theorem alook_foldl_aset_mem {β : Type} (pairs : List (String × β))
    (l : List (String × β)) (k : String) (v : β)
    (hnd : (pairs.map Prod.fst).Nodup) (hm : (k, v) ∈ pairs) :
    alook (pairs.foldl (fun a p => aset a p.1 p.2) l) k = some v := by
  induction pairs generalizing l with
  | nil => cases hm
  | cons p rest ih =>
      simp only [List.map_cons, List.nodup_cons] at hnd
      rcases List.mem_cons.mp hm with hp | hp
      · subst hp
        rw [List.foldl_cons, alook_foldl_aset_not_mem rest (aset l k v) k hnd.1,
          alook_aset_self]
      · rw [List.foldl_cons]
        exact ih (aset l p.1 p.2) hnd.2 hp

theorem foldl_aset_of_disjoint {β : Type} (pairs : List (String × β))
    (acc : List (String × β)) (hnd : (pairs.map Prod.fst).Nodup)
    (hdisj : ∀ k ∈ pairs.map Prod.fst, alook acc k = none) :
    pairs.foldl (fun a p => aset a p.1 p.2) acc = acc ++ pairs := by
  induction pairs generalizing acc with
  | nil => simp
  | cons p rest ih =>
      simp only [List.map_cons, List.nodup_cons] at hnd
      have hp0 : alook acc p.1 = none := hdisj p.1 (by simp)
      have haset : aset acc p.1 p.2 = acc ++ [p] := by
        unfold aset
        rw [if_neg (by simp [hp0])]
      rw [List.foldl_cons, haset, ih (acc ++ [p]) hnd.2]
      · simp
      · intro k hk
        have hkp : k ≠ p.1 := fun he => hnd.1 (he ▸ hk)
        rw [show (p : String × β) = (p.1, p.2) from rfl] at hkp ⊢
        rw [alook_append_single_ne acc p.1 p.2 k hkp]
        exact hdisj k (by simp [hk])

theorem dictOfPairs_eq_self {β : Type} (pairs : List (String × β))
    (hnd : (pairs.map Prod.fst).Nodup) : dictOfPairs pairs = pairs := by
  unfold dictOfPairs
  rw [foldl_aset_of_disjoint pairs [] hnd (fun k _ => rfl)]
  rfl

theorem alook_applyUpdates_not_mem (pos ntv : List (String × ℚ)) (k : String)
    (h : k ∉ ntv.map Prod.fst) : alook (applyUpdates pos ntv) k = alook pos k := by
  unfold applyUpdates
  induction ntv generalizing pos with
  | nil => rfl
  | cons p rest ih =>
      simp only [List.map_cons, List.mem_cons, not_or] at h
      rw [List.foldl_cons, ih (setIfPresent pos p.1 p.2) h.2,
        alook_setIfPresent_ne pos p.1 p.2 k h.1]

theorem alook_applyUpdates_mem (pos ntv : List (String × ℚ)) (k : String) (v : ℚ)
    (hnd : (ntv.map Prod.fst).Nodup) (hm : (k, v) ∈ ntv)
    (hs : (alook pos k).isSome = true) :
    alook (applyUpdates pos ntv) k = some v := by
  unfold applyUpdates
  induction ntv generalizing pos with
  | nil => cases hm
  | cons p rest ih =>
      simp only [List.map_cons, List.nodup_cons] at hnd
      rcases List.mem_cons.mp hm with hp | hp
      · subst hp
        rw [List.foldl_cons,
          show (List.foldl (fun a p => setIfPresent a p.1 p.2)
              (setIfPresent pos k v) rest) = applyUpdates (setIfPresent pos k v) rest
            from rfl]
        rw [alook_applyUpdates_not_mem (setIfPresent pos k v) rest k hnd.1,
          alook_setIfPresent_self]
        obtain ⟨w, hw⟩ := Option.isSome_iff_exists.mp hs
        simp [hw]
      · have hkp : k ≠ p.1 := by
          intro he
          exact hnd.1 (he ▸ List.mem_map.mpr ⟨(k, v), hp, rfl⟩)
        rw [List.foldl_cons]
        exact ih (setIfPresent pos p.1 p.2) hnd.2 hp
          (by rw [isSome_alook_setIfPresent pos p.1 p.2 k]; exact hs)

theorem map_fst_zip_take {β : Type} (l : List String) (l2 : List β) :
    (l.zip l2).map Prod.fst = l.take l2.length := by
  induction l generalizing l2 with
  | nil => simp
  | cons a rest ih =>
      cases l2 with
      | nil => simp
      | cons b rest2 => simp [List.zip_cons_cons, ih]


/-! ## Index and membership glue -/

theorem getD_eq_getElem_of_lt {α : Type} (l : List α) (d : α) (i : Nat)
    (h : i < l.length) : l.getD i d = l[i] := by
  simp [List.getD_eq_getElem?_getD, List.getElem?_eq_getElem h]

theorem mem_zip_of_lt (l : List String) (l2 : List ℚ) (i : Nat)
    (h1 : i < l.length) (h2 : i < l2.length) : (l[i], l2[i]) ∈ l.zip l2 := by
  have hz : i < (l.zip l2).length := by
    rw [List.length_zip]
    omega
  have he := @List.getElem_zip _ _ l l2 i hz
  rw [← he]
  exact List.getElem_mem hz

theorem getD_mem (l : List String) (j : Nat) (h : j < l.length) : l.getD j "" ∈ l := by
  rw [getD_eq_getElem_of_lt l "" j h]
  exact List.getElem_mem h

/-! ## Structural lemmas about the embedded operations -/

theorem alook_ensure_safe (mrt : MaxRelTarget) (g : String → ℚ × ℚ)
    (l : List String) (jn : String) (h : jn ∈ l) :
    alook (ensure_safe_goal_position (l.map (fun x => (x, g x))) mrt) jn
      = some (relClamp mrt jn (g jn)) := by
  induction l with
  | nil => cases h
  | cons a rest ih =>
      by_cases ha : a = jn
      · subst ha
        simp [ensure_safe_goal_position, alook_cons]
      · have hmem : jn ∈ rest := by
          rcases List.mem_cons.mp h with h' | h'
          · exact absurd h'.symm ha
          · exact h'
        simpa [ensure_safe_goal_position, alook_cons, ha] using ih hmem

theorem alook_relStep_some (cfg : SO101Config) (obs : LastObs)
    (goal_pos : List (String × ℚ)) (mrt : MaxRelTarget)
    (hm : cfg.max_relative_target = some mrt) (jn : String)
    (h : jn ∈ cfg.joint_names) :
    alook (relStep cfg obs goal_pos) jn =
      some (relClamp mrt jn
        ((alook goal_pos jn).getD (presentOf obs jn), presentOf obs jn)) := by
  unfold relStep
  rw [hm]
  exact alook_ensure_safe mrt
    (fun x => ((alook goal_pos x).getD (presentOf obs x), presentOf obs x))
    cfg.joint_names jn h

theorem absClampList_cons (obs : LastObs) (g : List (String × ℚ)) (lo hi : List ℚ)
    (a : String) (rest : List String) (i : Nat) :
    absClampList obs g lo hi (a :: rest) i =
      (a, min (max ((alook g a).getD (presentOf obs a)) (lo.getD i 0)) (hi.getD i 0))
        :: absClampList obs g lo hi rest (i + 1) := rfl

theorem alook_absClampList (obs : LastObs) (g : List (String × ℚ)) (lo hi : List ℚ) :
    ∀ (names : List String) (i j : Nat), names.Nodup → j < names.length →
    alook (absClampList obs g lo hi names i) (names.getD j "") =
      some (min (max ((alook g (names.getD j "")).getD (presentOf obs (names.getD j "")))
        (lo.getD (i + j) 0)) (hi.getD (i + j) 0)) := by
  intro names
  induction names with
  | nil =>
      intro i j _ hj
      cases hj
  | cons a rest ih =>
      intro i j hnd hj
      rw [List.nodup_cons] at hnd
      cases j with
      | zero =>
          simp [absClampList_cons, alook_cons]
      | succ j' =>
          have hj' : j' < rest.length := by
            simpa using Nat.lt_of_succ_lt_succ hj
          have hne : a ≠ (a :: rest).getD (j' + 1) "" := by
            rw [List.getD_cons_succ]
            intro he
            exact hnd.1 (he ▸ getD_mem rest j' hj')
          rw [absClampList_cons, alook_cons, if_neg hne, List.getD_cons_succ]
          have harith : i + 1 + j' = i + (j' + 1) := by omega
          rw [← harith]
          exact ih (i + 1) j' hnd.2 hj'

theorem absStep_inactive (cfg : SO101Config) (obs : LastObs) (g : List (String × ℚ))
    (h : absActive cfg = false) : absStep cfg obs g = g := by
  unfold absStep
  unfold absActive at h
  cases hmin : cfg.joint_min with
  | none => rfl
  | some lo =>
      cases hmax : cfg.joint_max with
      | none => rfl
      | some hi =>
          rw [hmin, hmax] at h
          simp only [Bool.and_eq_false_iff, Bool.not_eq_false'] at h
          have hcond : (lo.isEmpty || hi.isEmpty) = true := by
            rcases h with h | h <;> simp [h]
          simp [hcond]

theorem absStep_active (cfg : SO101Config) (obs : LastObs) (g : List (String × ℚ))
    (lo hi : List ℚ) (hmin : cfg.joint_min = some lo) (hmax : cfg.joint_max = some hi)
    (hlo : lo ≠ []) (hhi : hi ≠ []) :
    absStep cfg obs g = absClampList obs g lo hi cfg.joint_names 0 := by
  unfold absStep
  simp only [hmin, hmax]
  rw [if_neg]
  simp [hlo, hhi]

theorem send_action_target (cfg : SO101Config) (obs : LastObs) (now : ℚ) (ok : Bool)
    (action : List (String × ℚ)) :
    (send_action cfg obs now ok action).target =
      cfg.joint_names.map (fun jn =>
        (alook (absStep cfg obs (relStep cfg obs (extract_goal_pos action))) jn).getD
          (presentOf obs jn)) := rfl

theorem send_action_cache_pos (cfg : SO101Config) (obs : LastObs) (now : ℚ) (ok : Bool)
    (action : List (String × ℚ)) :
    (send_action cfg obs now ok action).cache.pos =
      (cfg.joint_names.zip (send_action cfg obs now ok action).target).foldl
        (fun acc p => aset acc p.1 p.2) obs.pos := rfl

theorem send_action_cache_timestamp (cfg : SO101Config) (obs : LastObs) (now : ℚ)
    (ok : Bool) (action : List (String × ℚ)) :
    (send_action cfg obs now ok action).cache.timestamp = now := rfl

theorem send_action_returned (cfg : SO101Config) (obs : LastObs) (now : ℚ) (ok : Bool)
    (action : List (String × ℚ)) :
    (send_action cfg obs now ok action).returned =
      cfg.joint_names.zip (send_action cfg obs now ok action).target := rfl

/-! ## Concrete instances used by scenarios, witnesses and counterexamples -/

/-- Scenario A configuration: joints `[a, b]`, scalar relative limit `0.1`,
no absolute bounds. -/
def cfgAB : SO101Config := ⟨["a", "b"], some (.scalar (mkRat 1 10)), none, none⟩

/-- A configuration with joints `[a, b]` and no safety limits. -/
def cfgPlain : SO101Config := ⟨["a", "b"], none, none, none⟩

/-- A configuration with a single joint `a` and absolute bounds `[0, 1]`. -/
def cfgBound : SO101Config := ⟨["a"], none, some [0], some [1]⟩

/-- A cache with both joints at `0`, timestamp `0`. -/
def obsZero : LastObs := ⟨[("a", 0), ("b", 0)], 0⟩

/-- A cache with both joints at `0`, timestamp `1`. -/
def obsOne : LastObs := ⟨[("a", 0), ("b", 0)], 1⟩

/-- A cache holding joint `a` at `5`, outside `cfgBound`'s bounds. -/
def obsFive : LastObs := ⟨[("a", 5)], 0⟩

/-- Scenario A action: target `{a: 1.0, b: -1.0}` in `.pos`-key form. -/
def actAB : List (String × ℚ) := [("a.pos", 1), ("b.pos", -1)]

/-- A command frame whose target length (2) mismatches the canonical six. -/
def badCmd : CmdMsg := ⟨some "cmd", some "joint_position", none, some (.list [1, 2])⟩

/-- A well-formed command frame carrying a bogus names list. -/
def goodCmd : CmdMsg :=
  ⟨some "cmd", some "joint_position", some ["x"], some (.list [1, 2, 3, 4, 5, 6])⟩

/-- The endpoint's initial authoritative vector. -/
def qZero : List ℚ := [0, 0, 0, 0, 0, 0]

/-! ## Claims about the endpoint ingest task and the connection loop -/

/-- Unfolding equation of `rx_step` on a parsed frame. -/
theorem rx_step_msg (q : List ℚ) (m : CmdMsg) :
    rx_step q (.msg m) =
      if m.type ≠ some "cmd" then q
      else if m.mode ≠ some "joint_position" then q
      else
        match m.target with
        | some (.list tgt) => if tgt.length = JOINT_NAMES.length then tgt else q
        | some .notList => q
        | none => q := rfl

/-- Claim C3: the endpoint ingest task rejects any frame whose `type` is not
`"cmd"`, whose `mode` is not `"joint_position"`, or whose `target` is not a
list of the canonical joint count, leaving the authoritative vector `q`
unchanged; a subsequent well-formed command frame is still applied and
replaces `q` entirely with its target. -/
theorem rx_loop_rejects_and_recovers (q : List ℚ) (bad good : CmdMsg) (tgt : List ℚ)
    (hbad : bad.type ≠ some "cmd" ∨ bad.mode ≠ some "joint_position" ∨
      ∀ t, bad.target = some (.list t) → t.length ≠ JOINT_NAMES.length)
    (hg1 : good.type = some "cmd") (hg2 : good.mode = some "joint_position")
    (hg3 : good.target = some (.list tgt)) (hg4 : tgt.length = JOINT_NAMES.length) :
    rx_step q (.msg bad) = q ∧ rx_steps q [.msg bad, .msg good] = tgt := by
  have hb : ∀ q0 : List ℚ, rx_step q0 (.msg bad) = q0 := by
    intro q0
    rw [rx_step_msg]
    rcases hbad with h | h | h
    · rw [if_pos h]
    · by_cases ht : bad.type ≠ some "cmd"
      · rw [if_pos ht]
      · rw [if_neg ht, if_pos h]
    · by_cases ht : bad.type ≠ some "cmd"
      · rw [if_pos ht]
      · rw [if_neg ht]
        by_cases hm : bad.mode ≠ some "joint_position"
        · rw [if_pos hm]
        · rw [if_neg hm]
          cases htg : bad.target with
          | none => rfl
          | some tf =>
              cases tf with
              | list t => simp [h t htg]
              | notList => rfl
  have hgd : ∀ q0 : List ℚ, rx_step q0 (.msg good) = tgt := by
    intro q0
    rw [rx_step_msg]
    rw [if_neg (by simp [hg1]), if_neg (by simp [hg2])]
    simp [hg3, hg4]
  refine ⟨hb q, ?_⟩
  unfold rx_steps
  rw [List.foldl_cons, hb q, List.foldl_cons, hgd q, List.foldl_nil]

/-- Witness for C3 at Scenario D's shape: a two-element target is rejected
against the six canonical joints, and the next well-formed command is
applied in full. -/
theorem rx_loop_rejects_and_recovers_witness :
    rx_step qZero (.msg badCmd) = qZero ∧
    rx_steps qZero [.msg badCmd, .msg goodCmd] = [1, 2, 3, 4, 5, 6] :=
  rx_loop_rejects_and_recovers qZero badCmd goodCmd [1, 2, 3, 4, 5, 6]
    (Or.inr (Or.inr (by
      intro t ht
      have h2 : TargetField.list [1, 2] = TargetField.list t := Option.some.inj ht
      have h3 : ([1, 2] : List ℚ) = t := by
        cases h2
        rfl
      rw [← h3]
      decide)))
    rfl rfl rfl (by decide)

/-- Claim C9: a valid command's target is applied purely positionally and
the frame's `names` field is ignored entirely: for a frame of type `"cmd"`,
mode `"joint_position"` and a target of canonical length, `q` becomes
exactly the target, whatever names list the frame carries. -/
theorem rx_loop_ignores_names (q : List ℚ) (names1 names2 : Option (List String))
    (tgt : List ℚ) (hlen : tgt.length = JOINT_NAMES.length) :
    rx_step q (.msg ⟨some "cmd", some "joint_position", names1, some (.list tgt)⟩)
        = tgt ∧
    rx_step q (.msg ⟨some "cmd", some "joint_position", names1, some (.list tgt)⟩)
      = rx_step q (.msg ⟨some "cmd", some "joint_position", names2, some (.list tgt)⟩) := by
  constructor
  · rw [rx_step_msg]
    simp [hlen]
  · rfl

/-- Witness for C9: a permuted names list and an absent names list produce
the same positional application. -/
theorem rx_loop_ignores_names_witness :
    rx_step qZero
        (.msg ⟨some "cmd", some "joint_position", some ["gripper", "elbow_flex"],
          some (.list [1, 2, 3, 4, 5, 6])⟩) = [1, 2, 3, 4, 5, 6] ∧
    rx_step qZero
        (.msg ⟨some "cmd", some "joint_position", some ["gripper", "elbow_flex"],
          some (.list [1, 2, 3, 4, 5, 6])⟩)
      = rx_step qZero
        (.msg ⟨some "cmd", some "joint_position", none, some (.list [1, 2, 3, 4, 5, 6])⟩) :=
  rx_loop_ignores_names qZero (some ["gripper", "elbow_flex"]) none
    [1, 2, 3, 4, 5, 6] (by decide)

/-- Claim C4 (code bug): the retry loop of `connect` honors its budget of 10
attempts only when every attempt fails by raising; an attempt that times out
makes `_run` swallow the `asyncio.TimeoutError` and return `None`, so the
loop prints "connected" and breaks with no handle stored, and `connect`
raises after that single attempt.  With every attempt timing out, one
attempt is made instead of the claimed ten. -/
theorem connect_timeout_breaks_retry :
    connect false (fun _ => .timeout) = .connectionFailed 1 ∧
    connect false (fun _ => .failure) = .connectionFailed 10 ∧
    connect false (fun _ => .success) = .connected 1 ∧
    connect true (fun _ => .success) = .alreadyConnected := by decide

/-! ## Claims about send_action -/

theorem alook_zip_getElem (names : List String) (vals : List ℚ) (j : Nat)
    (hnd : names.Nodup) (h1 : j < names.length) (h2 : j < vals.length) :
    alook (names.zip vals) names[j] = some vals[j] := by
  have hkeys : ((names.zip vals).map Prod.fst).Nodup := by
    rw [map_fst_zip_take]
    exact (List.take_sublist vals.length names).nodup hnd
  rw [← dictOfPairs_eq_self (names.zip vals) hkeys]
  exact alook_foldl_aset_mem (names.zip vals) [] names[j] vals[j] hkeys
    (mem_zip_of_lt names vals j h1 h2)

theorem alook_send_cache (cfg : SO101Config) (obs : LastObs) (now : ℚ) (ok : Bool)
    (action : List (String × ℚ)) (j : Nat) (hnd : cfg.joint_names.Nodup)
    (hj : j < cfg.joint_names.length) :
    alook (send_action cfg obs now ok action).cache.pos cfg.joint_names[j]
      = some ((send_action cfg obs now ok action).target.getD j 0) := by
  have hlen : (send_action cfg obs now ok action).target.length
      = cfg.joint_names.length := by
    rw [send_action_target]
    exact List.length_map cfg.joint_names _
  have hj2 : j < (send_action cfg obs now ok action).target.length := by omega
  have hkeys : ((cfg.joint_names.zip (send_action cfg obs now ok action).target).map
      Prod.fst).Nodup := by
    rw [map_fst_zip_take]
    exact (List.take_sublist _ cfg.joint_names).nodup hnd
  rw [send_action_cache_pos, getD_eq_getElem_of_lt _ 0 j hj2]
  exact alook_foldl_aset_mem _ obs.pos cfg.joint_names[j] _ hkeys
    (mem_zip_of_lt cfg.joint_names _ j hj hj2)

/-- Claim C5: a transport send failure during `send_action` is non-fatal
and invisible in the outcome: the result is identical whether the send
succeeds or fails, the cache is still optimistically updated to the shaped
target with the send timestamp, and the returned mapping carries exactly
the shaped target values. -/
theorem send_action_send_failure_nonfatal (cfg : SO101Config) (obs : LastObs)
    (now : ℚ) (action : List (String × ℚ)) (hnd : cfg.joint_names.Nodup) :
    send_action cfg obs now false action = send_action cfg obs now true action ∧
    (send_action cfg obs now false action).cache.timestamp = now ∧
    ∀ j, (hj : j < cfg.joint_names.length) →
      alook (send_action cfg obs now false action).cache.pos cfg.joint_names[j]
          = some ((send_action cfg obs now false action).target.getD j 0) ∧
      alook (send_action cfg obs now false action).returned cfg.joint_names[j]
          = some ((send_action cfg obs now false action).target.getD j 0) := by
  refine ⟨rfl, rfl, fun j hj => ⟨alook_send_cache cfg obs now false action j hnd hj, ?_⟩⟩
  have hlen : (send_action cfg obs now false action).target.length
      = cfg.joint_names.length := by
    rw [send_action_target]
    exact List.length_map cfg.joint_names _
  have hj2 : j < (send_action cfg obs now false action).target.length := by omega
  rw [send_action_returned, getD_eq_getElem_of_lt _ 0 j hj2]
  exact alook_zip_getElem cfg.joint_names _ j hnd hj hj2

/-- Witness for C5 at joints `[a, b]`, no limits, action `{a.pos: 2}`. -/
theorem send_action_send_failure_nonfatal_witness :
    send_action cfgPlain obsZero 4 false [("a.pos", 2)]
        = send_action cfgPlain obsZero 4 true [("a.pos", 2)] ∧
    (send_action cfgPlain obsZero 4 false [("a.pos", 2)]).cache.timestamp = 4 ∧
    alook (send_action cfgPlain obsZero 4 false [("a.pos", 2)]).cache.pos "a"
      = some ((send_action cfgPlain obsZero 4 false [("a.pos", 2)]).target.getD 0 0) := by
  have h := send_action_send_failure_nonfatal cfgPlain obsZero 4 [("a.pos", 2)] (by decide)
  exact ⟨h.1, h.2.1, (h.2.2 0 (by decide)).1⟩

/-! ## Claims about get_observation -/

/-- Unfolding equation of `get_observation` on a parsed message. -/
theorem get_observation_msg (cfg : SO101Config) (obs : LastObs) (now : ℚ)
    (m : StateMsg) :
    get_observation cfg obs now (.msg m) =
      if m.type = some "state" then
        match m.names, m.joint_pos with
        | some ns, some (.list ps) =>
            ⟨applyUpdates obs.pos (dictOfPairs (ns.zip ps)), m.timestamp.getD now⟩
        | some ns, some (.str s) =>
            match mergeChars obs.pos (dictOfPairs (ns.zip s.data)) with
            | (pos2, true) => ⟨pos2, m.timestamp.getD now⟩
            | (pos2, false) => ⟨pos2, obs.timestamp⟩
        | some _, some .nonIterable => obs
        | none, some (.list ps) =>
            ⟨applyUpdates obs.pos (dictOfPairs (cfg.joint_names.zip ps)),
              m.timestamp.getD now⟩
        | _, _ => ⟨obs.pos, m.timestamp.getD now⟩
      else obs := rfl

/-- Claim C7: a state frame without `names` whose `joint_pos` list is
aligned to the canonical joint order is merged positionally — each position
is written onto the joint at the same index — and the cached timestamp is
taken from the frame when present, else from the local clock; in
particular `{"type":"state","joint_pos":[0.2,0.3]}` against joints `[a,b]`
updates the cache to `{a:0.2, b:0.3}`. -/
theorem get_observation_positional_merge (cfg : SO101Config) (obs : LastObs)
    (now : ℚ) (m : StateMsg) (ps : List ℚ) (hnd : cfg.joint_names.Nodup)
    (hinv : ∀ jn ∈ cfg.joint_names, (alook obs.pos jn).isSome = true)
    (hty : m.type = some "state") (hnm : m.names = none)
    (hjp : m.joint_pos = some (.list ps))
    (hlen : ps.length = cfg.joint_names.length) :
    (∀ j, (hj : j < cfg.joint_names.length) →
      alook (get_observation cfg obs now (.msg m)).pos cfg.joint_names[j]
        = some (ps.getD j 0)) ∧
    (get_observation cfg obs now (.msg m)).timestamp = m.timestamp.getD now ∧
    get_observation cfgPlain obsZero 9
        (.msg ⟨some "state", none, some (.list [mkRat 1 5, mkRat 3 10]), some 4⟩)
      = ⟨[("a", mkRat 1 5), ("b", mkRat 3 10)], 4⟩ ∧
    get_observation cfgPlain obsZero 9
        (.msg ⟨some "state", none, some (.list [mkRat 1 5, mkRat 3 10]), none⟩)
      = ⟨[("a", mkRat 1 5), ("b", mkRat 3 10)], 9⟩ := by
  have hkeys : ((cfg.joint_names.zip ps).map Prod.fst).Nodup := by
    rw [map_fst_zip_take]
    exact (List.take_sublist _ _).nodup hnd
  have hred : get_observation cfg obs now (.msg m) =
      ⟨applyUpdates obs.pos (cfg.joint_names.zip ps), m.timestamp.getD now⟩ := by
    rw [get_observation_msg, if_pos hty]
    simp [hnm, hjp, dictOfPairs_eq_self _ hkeys]
  refine ⟨?_, by rw [hred], by decide, by decide⟩
  intro j hj
  have hj2 : j < ps.length := by rw [hlen]; exact hj
  rw [hred, getD_eq_getElem_of_lt ps 0 j hj2]
  exact alook_applyUpdates_mem obs.pos _ cfg.joint_names[j] ps[j] hkeys
    (mem_zip_of_lt _ _ j hj hj2) (hinv _ (List.getElem_mem hj))

/-- Witness for C7 extracted at Scenario C's inputs. -/
theorem get_observation_positional_merge_witness :
    alook (get_observation cfgPlain obsZero 9
        (.msg ⟨some "state", none, some (.list [mkRat 1 5, mkRat 3 10]), some 4⟩)).pos "a"
      = some (mkRat 1 5) ∧
    (get_observation cfgPlain obsZero 9
        (.msg ⟨some "state", none, some (.list [mkRat 1 5, mkRat 3 10]), some 4⟩)).timestamp
      = 4 := by
  have h := get_observation_positional_merge cfgPlain obsZero 9
    ⟨some "state", none, some (.list [mkRat 1 5, mkRat 3 10]), some 4⟩
    [mkRat 1 5, mkRat 3 10] (by decide) (by decide) rfl rfl rfl (by decide)
  exact ⟨h.1 0 (by decide), h.2.1⟩

/-- Claim C10 counterexample: a state frame with a `names` field and a
non-iterable `joint_pos` (a JSON number, boolean or null) makes `zip`
raise inside the `try` block before the timestamp line, so — contrary to
the claim — the cached timestamp is not overwritten: with cached timestamp
1 and frame timestamp 5, everything stays unchanged. -/
theorem get_observation_no_values_ts_cex :
    get_observation cfgPlain obsOne 3
        (.msg ⟨some "state", some ["a"], some .nonIterable, some 5⟩) = obsOne ∧
    obsOne.timestamp = 1 ∧ (1 : ℚ) ≠ 5 := by decide

/-- Every key of the dict built from `pairs` is a key of `pairs`. -/
theorem mem_map_fst_dictOfPairs {β : Type} (pairs : List (String × β)) (k : String)
    (h : k ∈ (dictOfPairs pairs).map Prod.fst) : k ∈ pairs.map Prod.fst := by
  by_contra hk
  have h1 : alook (dictOfPairs pairs) k = none := by
    unfold dictOfPairs
    rw [alook_foldl_aset_not_mem pairs [] k hk]
    rfl
  exact ((alook_eq_none_iff (dictOfPairs pairs) k).mp h1) h

/-- The character-merge loop completes without change when no pair names a
cached joint. -/
theorem mergeChars_all_unknown (pos : List (String × ℚ))
    (pairs : List (String × Char)) (h : ∀ p ∈ pairs, alook pos p.1 = none) :
    mergeChars pos pairs = (pos, true) := by
  induction pairs with
  | nil => rfl
  | cons p rest ih =>
      have hp : alook pos p.1 = none := h p (by simp)
      unfold mergeChars
      rw [hp]
      simp only [Option.isSome_none, Bool.false_eq_true, if_false]
      exact ih (fun q hq => h q (by simp [hq]))

/-- Claim C10 as amended: a state frame that yields no recognized joint
values leaves every cached position unchanged, and still overwrites the
cached timestamp (frame timestamp if present, else local time) — except in
one case: when the frame carries both a `names` field and a non-iterable
`joint_pos` (a JSON number, boolean or null), `zip` raises a `TypeError`,
the swallowed exception aborts the merge before the timestamp line, and
nothing, the timestamp included, changes.  A non-list but iterable
`joint_pos` such as a JSON string zips with the names; when none of the
zipped names is a recognized joint, positions stay unchanged and the
timestamp is still overwritten. -/
theorem get_observation_no_values_timestamp (cfg : SO101Config) (obs : LastObs)
    (now : ℚ) (m : StateMsg) (hty : m.type = some "state") :
    (m.joint_pos = none →
      get_observation cfg obs now (.msg m) = ⟨obs.pos, m.timestamp.getD now⟩) ∧
    (m.names = none → ∀ s, m.joint_pos = some (.str s) →
      get_observation cfg obs now (.msg m) = ⟨obs.pos, m.timestamp.getD now⟩) ∧
    (m.names = none → m.joint_pos = some .nonIterable →
      get_observation cfg obs now (.msg m) = ⟨obs.pos, m.timestamp.getD now⟩) ∧
    (∀ ns, m.names = some ns → m.joint_pos = some .nonIterable →
      get_observation cfg obs now (.msg m) = obs) ∧
    (∀ ns s, m.names = some ns → m.joint_pos = some (.str s) →
      (∀ jn ∈ ns, alook obs.pos jn = none) →
      get_observation cfg obs now (.msg m) = ⟨obs.pos, m.timestamp.getD now⟩) := by
  rw [get_observation_msg, if_pos hty]
  refine ⟨fun hjp => ?_, fun hnm s hjp => ?_, fun hnm hjp => ?_,
    fun ns hnm hjp => ?_, fun ns s hnm hjp hnone => ?_⟩
  · cases hnm : m.names <;> simp [hnm, hjp]
  · simp [hnm, hjp]
  · simp [hnm, hjp]
  · simp [hnm, hjp]
  · have hmc : mergeChars obs.pos (dictOfPairs (ns.zip s.data)) = (obs.pos, true) := by
      refine mergeChars_all_unknown obs.pos _ (fun p hp => ?_)
      have hk1 : p.1 ∈ (dictOfPairs (ns.zip s.data)).map Prod.fst :=
        List.mem_map_of_mem Prod.fst hp
      have hk2 : p.1 ∈ (ns.zip s.data).map Prod.fst :=
        mem_map_fst_dictOfPairs _ p.1 hk1
      rw [map_fst_zip_take] at hk2
      exact hnone p.1 (List.take_subset _ _ hk2)
    simp [hnm, hjp, hmc]

/-- Witness for C10's amended statement: with `joint_pos` absent the
timestamp is overwritten; and at the string-valued frame
`{"type":"state","names":["zz"],"joint_pos":"5","timestamp":9}` the zip
succeeds, the unrecognized name `zz` is skipped, and the timestamp is
overwritten with 9. -/
theorem get_observation_no_values_timestamp_witness :
    get_observation cfgPlain obsOne 3
        (.msg ⟨some "state", none, none, some 5⟩) = ⟨obsOne.pos, 5⟩ ∧
    get_observation cfgPlain obsOne 3
        (.msg ⟨some "state", some ["zz"], some (.str "5"), some 9⟩)
      = ⟨obsOne.pos, 9⟩ := by
  constructor
  · exact (get_observation_no_values_timestamp cfgPlain obsOne 3
      ⟨some "state", none, none, some 5⟩ rfl).1 rfl
  · exact (get_observation_no_values_timestamp cfgPlain obsOne 3
      ⟨some "state", some ["zz"], some (.str "5"), some 9⟩ rfl).2.2.2.2
      ["zz"] "5" rfl rfl (by decide)

/-- Claim C2 counterexample: a state frame with `names = [a]` and
`joint_pos = [5, 7]` (mismatched lengths) is not rejected: the cached
position of joint `a` changes from 0 to 5. -/
theorem get_observation_len_mismatch_cex :
    alook (get_observation cfgPlain obsZero 3
        (.msg ⟨some "state", some ["a"], some (.list [5, 7]), some 2⟩)).pos "a"
      = some 5 ∧
    alook obsZero.pos "a" = some 0 ∧ (5 : ℚ) ≠ 0 := by decide

/-- Claim C2 as amended: a state frame with `names` present and
`len(names) != len(joint_pos)` is not rejected; `dict(zip(names,
joint_pos))` silently truncates to the shorter length and those pairs are
merged, recognized joints taking the paired value, all other joints keeping
their cached value; the timestamp is updated and no exception propagates. -/
theorem get_observation_len_mismatch_merges (cfg : SO101Config) (obs : LastObs)
    (now : ℚ) (m : StateMsg) (ns : List String) (ps : List ℚ)
    (hty : m.type = some "state") (hnm : m.names = some ns)
    (hjp : m.joint_pos = some (.list ps)) (hlen : ns.length ≠ ps.length)
    (hnd : ns.Nodup) :
    (get_observation cfg obs now (.msg m)).timestamp = m.timestamp.getD now ∧
    (∀ jn, jn ∉ ns →
      alook (get_observation cfg obs now (.msg m)).pos jn = alook obs.pos jn) ∧
    (∀ j, (hj1 : j < ns.length) → (hj2 : j < ps.length) →
      (alook obs.pos ns[j]).isSome = true →
      alook (get_observation cfg obs now (.msg m)).pos ns[j] = some ps[j]) := by
  have hkeys : ((ns.zip ps).map Prod.fst).Nodup := by
    rw [map_fst_zip_take]
    exact (List.take_sublist _ _).nodup hnd
  have hred : get_observation cfg obs now (.msg m) =
      ⟨applyUpdates obs.pos (ns.zip ps), m.timestamp.getD now⟩ := by
    rw [get_observation_msg, if_pos hty]
    simp [hnm, hjp, dictOfPairs_eq_self _ hkeys]
  refine ⟨by rw [hred], fun jn hjn => ?_, fun j hj1 hj2 hs => ?_⟩
  · rw [hred]
    refine alook_applyUpdates_not_mem obs.pos _ jn ?_
    rw [map_fst_zip_take]
    exact fun hmem => hjn (List.take_subset _ _ hmem)
  · rw [hred]
    exact alook_applyUpdates_mem obs.pos _ ns[j] ps[j] hkeys
      (mem_zip_of_lt _ _ j hj1 hj2) hs

/-- Witness for C2's amended statement at the counterexample frame. -/
theorem get_observation_len_mismatch_merges_witness :
    (get_observation cfgPlain obsZero 3
        (.msg ⟨some "state", some ["a"], some (.list [5, 7]), some 2⟩)).timestamp = 2 ∧
    alook (get_observation cfgPlain obsZero 3
        (.msg ⟨some "state", some ["a"], some (.list [5, 7]), some 2⟩)).pos "b"
      = alook obsZero.pos "b" ∧
    alook (get_observation cfgPlain obsZero 3
        (.msg ⟨some "state", some ["a"], some (.list [5, 7]), some 2⟩)).pos "a"
      = some 5 := by
  have h := get_observation_len_mismatch_merges cfgPlain obsZero 3
    ⟨some "state", some ["a"], some (.list [5, 7]), some 2⟩ ["a"] [5, 7]
    rfl rfl rfl (by decide) (by decide)
  exact ⟨h.1, h.2.1 "b" (by decide), h.2.2 0 (by decide) (by decide) (by decide)⟩

/-- Claim C1: with a relative limit configured (and the absolute-clamp stage
not configured, as in the spec's `shape(T,P,{rel:r})`), every joint with a
defined nonnegative relative limit moves at most that much from its previous
cached value; and Scenario A: joints `[a,b]`, previous `{a:0,b:0}`, scalar
relative limit `0.1`, target `{a:1,b:-1}` shapes to `{a:0.1, b:-0.1}`. -/
theorem send_action_rel_limit :
    (∀ (cfg : SO101Config) (obs : LastObs) (now : ℚ) (ok : Bool)
        (action : List (String × ℚ)) (mrt : MaxRelTarget) (j : Nat) (r p : ℚ),
      cfg.max_relative_target = some mrt →
      absActive cfg = false →
      (hj : j < cfg.joint_names.length) →
      relLimit mrt cfg.joint_names[j] = some r →
      0 ≤ r →
      alook obs.pos cfg.joint_names[j] = some p →
      |(send_action cfg obs now ok action).target.getD j 0 - p| ≤ r) ∧
    (send_action cfgAB obsZero 7 true actAB).target = [mkRat 1 10, mkRat (-1) 10] := by
  constructor
  · intro cfg obs now ok action mrt j r p hm habs hj hr hrpos hp
    rw [send_action_target]
    simp only [absStep_inactive cfg obs (relStep cfg obs (extract_goal_pos action)) habs]
    rw [getD_eq_getElem_of_lt _ 0 j (by simpa using hj)]
    simp only [List.getElem_map]
    rw [alook_relStep_some cfg obs (extract_goal_pos action) mrt hm
      cfg.joint_names[j] (List.getElem_mem hj)]
    simp only [Option.getD_some, relClamp, hr, presentOf, hp]
    rw [abs_le]
    refine ⟨?_, ?_⟩
    · have h1 : p - r ≤ max (p - r)
          (min ((alook (extract_goal_pos action) cfg.joint_names[j]).getD p) (p + r)) :=
        le_max_left _ _
      linarith
    · have h2 : max (p - r)
          (min ((alook (extract_goal_pos action) cfg.joint_names[j]).getD p) (p + r))
          ≤ p + r :=
        max_le (by linarith) (min_le_right _ _)
      linarith
  · have e0 : extract_goal_pos actAB = [("a", 1), ("b", -1)] := by decide
    have ea : dropPos "a.pos" = "a" := by decide
    have eb : dropPos "b.pos" = "b" := by decide
    simp [send_action, absStep, relStep, cfgAB, obsZero, actAB, e0, ea, eb,
      aset, alook, presentOf, ensure_safe_goal_position, relClamp, relLimit]
    constructor
    · rw [min_eq_right, max_eq_right] <;> simp only [Rat.mkRat_eq_div] <;> norm_num
    · rw [min_eq_left, max_eq_left] <;> simp only [Rat.mkRat_eq_div] <;> norm_num

/-- Witness for C1: Scenario A's joint `a` stays within `0.1` of its
previous value `0`. -/
theorem send_action_rel_limit_witness :
    |(send_action cfgAB obsZero 7 true actAB).target.getD 0 0 - 0| ≤ mkRat 1 10 :=
  send_action_rel_limit.1 cfgAB obsZero 7 true actAB (.scalar (mkRat 1 10)) 0
    (mkRat 1 10) 0 rfl rfl (by decide) rfl (by decide) (by decide)

/-- The `j`-th payload target entry of `send_action`, as a lookup into the
clamped goal dict. -/
theorem send_action_target_getD (cfg : SO101Config) (obs : LastObs) (now : ℚ)
    (ok : Bool) (action : List (String × ℚ)) (j : Nat)
    (hj : j < cfg.joint_names.length) :
    (send_action cfg obs now ok action).target.getD j 0 =
      (alook (absStep cfg obs (relStep cfg obs (extract_goal_pos action)))
        cfg.joint_names[j]).getD (presentOf obs cfg.joint_names[j]) := by
  rw [send_action_target, getD_eq_getElem_of_lt _ 0 j (by simpa using hj)]
  simp only [List.getElem_map]

/-- Claim C8: for every joint with configured absolute bounds
`[lo_j, hi_j]` (parallel arrays aligned to the joint order, nonempty
interval), the shaped output of `send_action` lies within the bounds. -/
theorem send_action_abs_bounds (cfg : SO101Config) (obs : LastObs) (now : ℚ)
    (ok : Bool) (action : List (String × ℚ)) (lo hi : List ℚ) (j : Nat)
    (hmin : cfg.joint_min = some lo) (hmax : cfg.joint_max = some hi)
    (hlolen : lo.length = cfg.joint_names.length)
    (hhilen : hi.length = cfg.joint_names.length)
    (hnd : cfg.joint_names.Nodup) (hj : j < cfg.joint_names.length)
    (hlh : lo.getD j 0 ≤ hi.getD j 0) :
    lo.getD j 0 ≤ (send_action cfg obs now ok action).target.getD j 0 ∧
    (send_action cfg obs now ok action).target.getD j 0 ≤ hi.getD j 0 := by
  have hlo : lo ≠ [] := List.ne_nil_of_length_pos (by omega)
  have hhi : hi ≠ [] := List.ne_nil_of_length_pos (by omega)
  rw [send_action_target_getD cfg obs now ok action j hj,
    absStep_active cfg obs (relStep cfg obs (extract_goal_pos action))
      lo hi hmin hmax hlo hhi,
    ← getD_eq_getElem_of_lt cfg.joint_names "" j hj,
    alook_absClampList obs (relStep cfg obs (extract_goal_pos action)) lo hi
      cfg.joint_names 0 j hnd hj]
  simp only [Nat.zero_add, Option.getD_some]
  exact ⟨le_min (le_max_right _ _) hlh, min_le_right _ _⟩

/-- Witness for C8: `cfgBound` (bounds `[0, 1]`), previous value 5, empty
action — the shaped value for joint `a` lies in `[0, 1]`. -/
theorem send_action_abs_bounds_witness :
    (0 : ℚ) ≤ (send_action cfgBound obsFive 1 true []).target.getD 0 0 ∧
    (send_action cfgBound obsFive 1 true []).target.getD 0 0 ≤ 1 := by
  have h := send_action_abs_bounds cfgBound obsFive 1 true [] [0] [1] 0
    rfl rfl (by decide) (by decide) (by decide) (by decide) (by decide)
  exact ⟨h.1, h.2⟩

/-- Claim C6 counterexample: with absolute bounds `[0, 1]` configured and
previous value 5 outside them, shaping an empty target does not return the
previous value — the absolute clamp moves it to 1 — although the warning
condition does fire. -/
theorem send_action_empty_target_cex :
    (send_action cfgBound obsFive 1 true []).target = [1] ∧
    alook obsFive.pos "a" = some 5 ∧ (1 : ℚ) ≠ 5 ∧
    (send_action cfgBound obsFive 1 true []).warned = true := by decide

/-- Every key of the action failing the `.pos` filter makes the extracted
goal dict empty. -/
theorem extract_goal_pos_nil (action : List (String × ℚ))
    (hempty : ∀ kv ∈ action, endsWithPos kv.1 = false) :
    extract_goal_pos action = [] := by
  unfold extract_goal_pos
  rw [List.filter_eq_nil_iff.mpr (by simpa using hempty)]
  rfl

/-- Claim C6 as amended: shaping an action with no `.pos`-suffixed keys
signals the warning and returns exactly the previous cached value for every
configured joint, provided any configured relative limits are nonnegative
and each previous value lies within the configured absolute bounds; a
previous value outside the absolute bounds is clamped into them instead of
being returned unchanged. -/
theorem send_action_empty_target_holds (cfg : SO101Config) (obs : LastObs)
    (now : ℚ) (ok : Bool) (action : List (String × ℚ))
    (hempty : ∀ kv ∈ action, endsWithPos kv.1 = false)
    (hrel : ∀ mrt, cfg.max_relative_target = some mrt →
      ∀ jn r, relLimit mrt jn = some r → 0 ≤ r)
    (habs : ∀ lo hi, cfg.joint_min = some lo → cfg.joint_max = some hi →
      ∀ j, (hj : j < cfg.joint_names.length) →
        lo.getD j 0 ≤ presentOf obs cfg.joint_names[j] ∧
        presentOf obs cfg.joint_names[j] ≤ hi.getD j 0)
    (hnd : cfg.joint_names.Nodup) :
    (send_action cfg obs now ok action).warned = true ∧
    ∀ j, (hj : j < cfg.joint_names.length) →
      (send_action cfg obs now ok action).target.getD j 0 =
        presentOf obs cfg.joint_names[j] := by
  have hg0 : extract_goal_pos action = [] := extract_goal_pos_nil action hempty
  constructor
  · show (extract_goal_pos action).isEmpty = true
    rw [hg0]
    rfl
  intro j hj
  have hmid : ∀ jn ∈ cfg.joint_names,
      (alook (relStep cfg obs (extract_goal_pos action)) jn).getD (presentOf obs jn)
        = presentOf obs jn := by
    intro jn hjn
    cases hm : cfg.max_relative_target with
    | none =>
        unfold relStep
        rw [hm, hg0]
        rfl
    | some mrt =>
        rw [alook_relStep_some cfg obs (extract_goal_pos action) mrt hm jn hjn,
          Option.getD_some, hg0]
        show relClamp mrt jn ((alook [] jn).getD (presentOf obs jn), presentOf obs jn)
          = presentOf obs jn
        unfold relClamp
        cases hr : relLimit mrt jn with
        | none => rfl
        | some r =>
            have hrpos : 0 ≤ r := hrel mrt hm jn r hr
            show max (presentOf obs jn - r)
              (min ((alook [] jn).getD (presentOf obs jn)) (presentOf obs jn + r))
                = presentOf obs jn
            have h1 : min ((alook [] jn).getD (presentOf obs jn)) (presentOf obs jn + r)
                = presentOf obs jn := min_eq_left (by
              show presentOf obs jn ≤ presentOf obs jn + r
              linarith)
            rw [h1]
            exact max_eq_right (by linarith)
  rw [send_action_target_getD cfg obs now ok action j hj]
  cases habsA : absActive cfg with
  | false =>
      rw [absStep_inactive cfg obs (relStep cfg obs (extract_goal_pos action)) habsA]
      exact hmid cfg.joint_names[j] (List.getElem_mem hj)
  | true =>
      have hsome : ∃ lo hi, cfg.joint_min = some lo ∧ cfg.joint_max = some hi ∧
          lo ≠ [] ∧ hi ≠ [] := by
        unfold absActive at habsA
        cases hmin : cfg.joint_min with
        | none => rw [hmin] at habsA; cases habsA
        | some lo =>
            cases hmax : cfg.joint_max with
            | none => rw [hmin, hmax] at habsA; cases habsA
            | some hi =>
                rw [hmin, hmax] at habsA
                simp only [Bool.and_eq_true, Bool.not_eq_true', List.isEmpty_eq_false]
                  at habsA
                exact ⟨lo, hi, rfl, rfl, habsA.1, habsA.2⟩
      obtain ⟨lo, hi, hmin, hmax, hlo, hhi⟩ := hsome
      rw [absStep_active cfg obs (relStep cfg obs (extract_goal_pos action))
        lo hi hmin hmax hlo hhi]
      rw [← getD_eq_getElem_of_lt cfg.joint_names "" j hj]
      rw [alook_absClampList obs (relStep cfg obs (extract_goal_pos action)) lo hi
        cfg.joint_names 0 j hnd hj]
      simp only [Nat.zero_add, Option.getD_some]
      have hjn : cfg.joint_names.getD j "" ∈ cfg.joint_names := getD_mem _ j hj
      rw [hmid (cfg.joint_names.getD j "") hjn]
      have hb := habs lo hi hmin hmax j hj
      rw [← getD_eq_getElem_of_lt cfg.joint_names "" j hj] at hb
      rw [max_eq_left hb.1, min_eq_left hb.2]

/-- Witness for C6's amended statement: joints `[a, b]`, no limits, an
action whose single key lacks the `.pos` suffix — warning fires and the
target equals the previous values. -/
theorem send_action_empty_target_holds_witness :
    (send_action cfgPlain obsZero 2 true [("x", 3)]).warned = true ∧
    (send_action cfgPlain obsZero 2 true [("x", 3)]).target.getD 0 0
      = presentOf obsZero "a" := by
  have h := send_action_empty_target_holds cfgPlain obsZero 2 true [("x", 3)]
    (by decide) (fun mrt hm => nomatch hm) (fun lo hi hm => nomatch hm) (by decide)
  exact ⟨h.1, h.2 0 (by decide)⟩
